import Mathlib

/-!
Verification of the Avail funnel (`paima-funnel/src/funnels/avail/funnel.ts`).

The TypeScript source is shallowly embedded: remote calls (RPC header
fetches, the light-client data endpoint, the database cursor query) become
oracle functions passed as parameters, JavaScript numbers become `Nat`/`Int`
(`Math.max(x - d, 0)` on non-negative numbers is `Nat` subtraction), and the
stateful pieces of `readData` become pure state-transformation functions on
the fields of the cached funnel state they touch.
-/

namespace AvailFunnel

/-- `applyDelay` from funnel.ts: `Math.max(baseTimestamp - (config.delay ?? 0), 0)`.
`Nat` subtraction floors at 0, matching the `Math.max(_, 0)`. -/
def applyDelay (cfgDelay : Nat) (baseTimestamp : Nat) : Nat :=
  baseTimestamp - cfgDelay

/-- The loop of `findBlockByTimestamp` (funnel.ts lines 529-555).
`slot` is the chain oracle giving the slot of each block-number's header
(in the source this is two RPC calls plus `getSlotFromHeader`).
The `while (low < high)` loop is embedded with explicit fuel; the
wrapper supplies enough fuel for the search interval, so the fuel-0
branch is never reached from `findBlockByTimestamp`. -/
def findLoop (slot : Nat → Nat) (target : Nat) : Nat → Nat → Nat → Nat
  | 0, low, _ => low
  | fuel + 1, low, high =>
    if low < high then
      let mid := (low + high) / 2
      if slot mid * 20 ≤ target then findLoop slot target fuel (mid + 1) high
      else findLoop slot target fuel low mid
    else low

/-- `findBlockByTimestamp` from funnel.ts: binary search over `[1, finalizedHeight + 1)`
for the first block whose logical time (`slot * 20`) strictly exceeds `targetTimestamp`. -/
def findBlockByTimestamp (slot : Nat → Nat) (targetTimestamp finalizedHeight : Nat) : Nat :=
  findLoop slot targetTimestamp (finalizedHeight + 1) 1 (finalizedHeight + 1)

lemma findLoop_spec (slot : Nat → Nat) (target finH : Nat)
    (mono : ∀ i j, 1 ≤ i → i ≤ j → j ≤ finH → slot i ≤ slot j) :
    ∀ fuel low high, high - low ≤ fuel → 1 ≤ low → low ≤ high → high ≤ finH + 1 →
      (∀ n, 1 ≤ n → n < low → slot n * 20 ≤ target) →
      (∀ n, high ≤ n → n ≤ finH → target < slot n * 20) →
      low ≤ findLoop slot target fuel low high ∧
      findLoop slot target fuel low high ≤ high ∧
      (∀ n, 1 ≤ n → n < findLoop slot target fuel low high → slot n * 20 ≤ target) ∧
      (findLoop slot target fuel low high ≤ finH →
        target < slot (findLoop slot target fuel low high) * 20) := by
  intro fuel
  induction fuel with
  | zero =>
    intro low high hfuel h1 hlh hhf hlow hhigh
    have heq : low = high := by omega
    simp only [findLoop]
    exact ⟨le_refl _, le_of_eq heq, hlow, fun h => hhigh low (le_of_eq heq.symm) h⟩
  | succ fuel ih =>
    intro low high hfuel h1 hlh hhf hlow hhigh
    by_cases hlt : low < high
    · have hmid1 : low ≤ (low + high) / 2 := by omega
      have hmid2 : (low + high) / 2 < high := by omega
      have hmidf : (low + high) / 2 ≤ finH := by omega
      by_cases hcmp : slot ((low + high) / 2) * 20 ≤ target
      · have hstep : findLoop slot target (fuel + 1) low high =
            findLoop slot target fuel ((low + high) / 2 + 1) high := by
          simp only [findLoop, if_pos hlt, if_pos hcmp]
        rw [hstep]
        have hlow' : ∀ n, 1 ≤ n → n < (low + high) / 2 + 1 → slot n * 20 ≤ target := by
          intro n hn1 hn2
          by_cases hcase : n < low
          · exact hlow n hn1 hcase
          · have hmono := mono n ((low + high) / 2) hn1 (by omega) hmidf
            calc slot n * 20 ≤ slot ((low + high) / 2) * 20 := by
                  exact Nat.mul_le_mul_right 20 hmono
              _ ≤ target := hcmp
        have := ih ((low + high) / 2 + 1) high (by omega) (by omega) (by omega) hhf hlow' hhigh
        exact ⟨by omega, this.2.1, this.2.2.1, this.2.2.2⟩
      · have hstep : findLoop slot target (fuel + 1) low high =
            findLoop slot target fuel low ((low + high) / 2) := by
          simp only [findLoop, if_pos hlt, if_neg hcmp]
        rw [hstep]
        have hhigh' : ∀ n, (low + high) / 2 ≤ n → n ≤ finH → target < slot n * 20 := by
          intro n hn1 hn2
          have hmono := mono ((low + high) / 2) n (by omega) hn1 hn2
          have : slot ((low + high) / 2) * 20 ≤ slot n * 20 := Nat.mul_le_mul_right 20 hmono
          omega
        have := ih low ((low + high) / 2) (by omega) h1 (by omega) (by omega) hlow hhigh'
        exact ⟨this.1, by omega, this.2.2.1, this.2.2.2⟩
    · have heq : low = high := by omega
      simp only [findLoop, if_neg hlt]
      exact ⟨le_refl _, by omega, hlow, fun h => hhigh low (by omega) h⟩

/-- C1: for a secondary chain with non-decreasing slots, `findBlockByTimestamp`
returns the smallest block number in `[1, finalizedHeight]` whose logical time
(`slot * 20`) strictly exceeds the target (every smaller block does not exceed
it, which also resolves ties at the boundary to the first exceeding block), and
returns `finalizedHeight + 1` when no finalized header's logical time exceeds
the target. -/
theorem findBlockByTimestamp_correct (slot : Nat → Nat) (target finalizedHeight : Nat)
    (mono : ∀ i j, 1 ≤ i → i ≤ j → j ≤ finalizedHeight → slot i ≤ slot j) :
    1 ≤ findBlockByTimestamp slot target finalizedHeight ∧
    findBlockByTimestamp slot target finalizedHeight ≤ finalizedHeight + 1 ∧
    (∀ n, 1 ≤ n → n < findBlockByTimestamp slot target finalizedHeight →
      slot n * 20 ≤ target) ∧
    (findBlockByTimestamp slot target finalizedHeight ≤ finalizedHeight →
      target < slot (findBlockByTimestamp slot target finalizedHeight) * 20) ∧
    ((∀ n, 1 ≤ n → n ≤ finalizedHeight → slot n * 20 ≤ target) →
      findBlockByTimestamp slot target finalizedHeight = finalizedHeight + 1) := by
  have h := findLoop_spec slot target finalizedHeight mono (finalizedHeight + 1) 1
    (finalizedHeight + 1) (by omega) (le_refl 1) (by omega) (le_refl _)
    (by intro n hn1 hn2; omega)
    (by intro n hn1 hn2; omega)
  have hdef : findBlockByTimestamp slot target finalizedHeight =
      findLoop slot target (finalizedHeight + 1) 1 (finalizedHeight + 1) := rfl
  rw [← hdef] at h
  refine ⟨h.1, h.2.1, h.2.2.1, h.2.2.2, ?_⟩
  intro hall
  by_contra hne
  have hle : findBlockByTimestamp slot target finalizedHeight ≤ finalizedHeight := by
    have := h.2.1
    omega
  have := h.2.2.2 hle
  have := hall (findBlockByTimestamp slot target finalizedHeight) h.1 hle
  omega

/-- Witness for C1 at a concrete chain: slots `1,2,3,4,5` (times `20..100`),
target `45`; the first block with time `> 45` is block 3. -/
theorem findBlockByTimestamp_correct_witness :
    findBlockByTimestamp id 45 5 = 3 ∧
    (1 ≤ findBlockByTimestamp id 45 5 ∧
     findBlockByTimestamp id 45 5 ≤ 5 + 1 ∧
     (∀ n, 1 ≤ n → n < findBlockByTimestamp id 45 5 → id n * 20 ≤ 45) ∧
     (findBlockByTimestamp id 45 5 ≤ 5 → 45 < id (findBlockByTimestamp id 45 5) * 20) ∧
     ((∀ n, 1 ≤ n → n ≤ 5 → id n * 20 ≤ 45) → findBlockByTimestamp id 45 5 = 5 + 1)) :=
  ⟨by decide, findBlockByTimestamp_correct id 45 5 (fun i j _ h _ => h)⟩

/-- The datum type tag of a chain-data-extension datum; `getSubmittedData`
always produces `ChainDataExtensionDatumType.Generic`. -/
inductive CdeDatumType where
  | Generic
  deriving DecidableEq, Repr

/-- `CdeGenericDatum` as built by `getSubmittedData` (funnel.ts lines 477-485).
The source field `scheduledPrefix` (always `"avail"`) is named `scheduledTag`
here; `payload` holds the `data` string of one data transaction. -/
structure CdeGenericDatum where
  cdeName : String
  blockNumber : Int
  transactionHash : String
  payload : String
  cdeDatumType : CdeDatumType
  scheduledTag : String
  network : String
  deriving DecidableEq, Repr

/-- One primary-chain block's data (`ChainData` of `@paima/sm`), with the
fields the funnel touches. `extensionDatums` is optional in the source type
(absent until correlation attaches it); `submittedData` is kept abstract as
opaque event payloads. -/
structure ChainData where
  timestamp : Nat
  blockHash : String
  blockNumber : Int
  submittedData : List String
  extensionDatums : Option (List CdeGenericDatum)
  deriving DecidableEq, Repr

/-- The filter in `readData` (funnel.ts line 64): a buffered primary block is
emitted this round when its delayed timestamp is at most the secondary chain's
current logical time (`latestBlock.slot * 20`). -/
def availPass (cfgDelay latestHeaderTimestamp : Nat) (d : ChainData) : Bool :=
  decide (applyDelay cfgDelay d.timestamp ≤ latestHeaderTimestamp)

/-- The buffer-filtering stage of `readData` (funnel.ts lines 60-75): collect
the buffered blocks passing the delayed-timestamp filter into `chainData`
(first component), then `shift()` the buffer once per collected block, i.e.
drop `chainData.length` elements from the front of the buffer (second
component is the buffer left for the next call). -/
def readDataFilter (cfgDelay latestHeaderTimestamp : Nat) (bufferedChainData : List ChainData) :
    List ChainData × List ChainData :=
  let chainData := bufferedChainData.filter (availPass cfgDelay latestHeaderTimestamp)
  (chainData, bufferedChainData.drop chainData.length)

lemma filter_drop_of_pairwise {α : Type} (p : α → Bool) (l : List α)
    (h : l.Pairwise (fun a b => p b = true → p a = true)) :
    l.filter p = l.takeWhile p ∧ l.drop (l.filter p).length = l.dropWhile p := by
  induction l with
  | nil => simp
  | cons a t ih =>
    rw [List.pairwise_cons] at h
    by_cases hpa : p a = true
    · have ht := ih h.2
      rw [List.filter_cons_of_pos hpa, List.takeWhile_cons_of_pos hpa,
        List.dropWhile_cons_of_pos hpa]
      exact ⟨by rw [ht.1], by simpa using ht.2⟩
    · have hall : ∀ x ∈ t, ¬(p x = true) := by
        intro x hx hq
        exact hpa (h.1 x hx hq)
      have hnil : t.filter p = [] := List.filter_eq_nil_iff.mpr hall
      rw [List.filter_cons_of_neg hpa, List.takeWhile_cons_of_neg hpa,
        List.dropWhile_cons_of_neg hpa, hnil]
      simp

/-- A primary block with timestamp 100 (sample input for C2). -/
def lateBlock : ChainData :=
  ⟨100, "a", 1, [], none⟩

/-- A primary block with timestamp 0 (sample input for C2). -/
def earlyBlock : ChainData :=
  ⟨0, "b", 2, [], none⟩

/-- C2, counterexample to the claim as stated: with no configured delay and
secondary logical time 0, a buffer holding a not-yet-corroborated block
(timestamp 100) ahead of a corroborated one (timestamp 0), the block failing
the filter does not remain in `bufferedChainData`: the code drops elements
from the front of the buffer, one per emitted block, so the failing block is
evicted (and the emitted one stays buffered). -/
theorem readDataFilter_counterexample :
    ¬(∀ d ∈ [lateBlock, earlyBlock],
        0 < applyDelay 0 d.timestamp →
        d ∉ (readDataFilter 0 0 [lateBlock, earlyBlock]).1 ∧
        d ∈ (readDataFilter 0 0 [lateBlock, earlyBlock]).2) := by
  decide

/-- C2, amended: provided the buffered blocks are ordered by non-decreasing
timestamp (which holds for the buffer `readData` builds, since the base funnel
delivers consecutive primary blocks in ascending order), every buffered block
whose delayed timestamp exceeds the secondary chain's current logical time is
not in the returned batch and remains in the buffer for the next call; and if
no buffered block passes the filter, the returned batch is empty. -/
theorem readDataFilter_sorted_correct (cfgDelay latestHeaderTimestamp : Nat)
    (bufferedChainData : List ChainData)
    (hsorted : bufferedChainData.Pairwise (fun a b => a.timestamp ≤ b.timestamp)) :
    (∀ d ∈ bufferedChainData,
        latestHeaderTimestamp < applyDelay cfgDelay d.timestamp →
        d ∉ (readDataFilter cfgDelay latestHeaderTimestamp bufferedChainData).1 ∧
        d ∈ (readDataFilter cfgDelay latestHeaderTimestamp bufferedChainData).2) ∧
    ((∀ d ∈ bufferedChainData, latestHeaderTimestamp < applyDelay cfgDelay d.timestamp) →
        (readDataFilter cfgDelay latestHeaderTimestamp bufferedChainData).1 = []) := by
  have himp : bufferedChainData.Pairwise
      (fun a b => availPass cfgDelay latestHeaderTimestamp b = true →
        availPass cfgDelay latestHeaderTimestamp a = true) := by
    refine hsorted.imp ?_
    intro a b hab hb
    simp only [availPass, applyDelay, decide_eq_true_eq] at hb ⊢
    omega
  have hfd := filter_drop_of_pairwise _ _ himp
  constructor
  · intro d hd hfail
    have hpd : availPass cfgDelay latestHeaderTimestamp d = false := by
      simp only [applyDelay] at hfail
      simp only [availPass, applyDelay, decide_eq_false_iff_not]
      omega
    constructor
    · intro hmem
      have := List.of_mem_filter hmem
      rw [hpd] at this
      exact Bool.false_ne_true this
    · show d ∈ bufferedChainData.drop
        (bufferedChainData.filter (availPass cfgDelay latestHeaderTimestamp)).length
      rw [hfd.2]
      have hsplit := List.takeWhile_append_dropWhile
        (p := availPass cfgDelay latestHeaderTimestamp) (l := bufferedChainData)
      rw [← hsplit] at hd
      rcases List.mem_append.mp hd with htake | hdrop
      · have := List.mem_takeWhile_imp htake
        rw [hpd] at this
        exact absurd this Bool.false_ne_true
      · exact hdrop
  · intro hall
    show bufferedChainData.filter (availPass cfgDelay latestHeaderTimestamp) = []
    refine List.filter_eq_nil_iff.mpr ?_
    intro d hd
    have := hall d hd
    simp only [availPass, applyDelay, decide_eq_true_eq] at *
    omega

/-- A primary block with timestamp 10 (sample input for the C2 witness). -/
def promptBlock : ChainData :=
  ⟨10, "a", 1, [], none⟩

/-- Witness for the amended C2 on a two-block timestamp-sorted buffer: the
late block (delayed timestamp 100 > logical time 50) stays in the buffer and
is not returned. -/
theorem readDataFilter_sorted_correct_witness :
    lateBlock ∉ (readDataFilter 0 50 [promptBlock, lateBlock]).1 ∧
    lateBlock ∈ (readDataFilter 0 50 [promptBlock, lateBlock]).2 :=
  (readDataFilter_sorted_correct 0 50 [promptBlock, lateBlock] (by decide)).1
    lateBlock (by decide) (by decide)

/-- One secondary-chain submitted-data record as produced by
`getSubmittedData` and consumed by `composeChainData`
(`{ blockNumber, extensionDatums }` in funnel.ts). -/
structure CdeRecord where
  blockNumber : Int
  extensionDatums : List CdeGenericDatum
  deriving DecidableEq, Repr

/-- The per-block body of the `map` in `composeChainData` (funnel.ts lines
497-514): find the first record in `cdeData` whose `blockNumber` equals the
block's; if none, return the block unchanged; otherwise push the record's
extension datums onto the block's (or install them if the block has none —
in the source an existing empty array is truthy, so it takes the push
branch, and the record's array is always truthy). -/
def mergeBlock (cdeData : List CdeRecord) (blockData : ChainData) : ChainData :=
  match cdeData.find? (fun blockCdeData => blockCdeData.blockNumber == blockData.blockNumber) with
  | none => blockData
  | some matchingData =>
    match blockData.extensionDatums with
    | some eds => { blockData with extensionDatums := some (eds ++ matchingData.extensionDatums) }
    | none => { blockData with extensionDatums := some matchingData.extensionDatums }

/-- `composeChainData` from funnel.ts (lines 493-516). -/
def composeChainData (baseChainData : List ChainData) (cdeData : List CdeRecord) :
    List ChainData :=
  baseChainData.map (mergeBlock cdeData)

lemma composeChainData_getElem (baseChainData : List ChainData) (cdeData : List CdeRecord)
    (i : Nat) (hi : i < baseChainData.length) :
    (composeChainData baseChainData cdeData)[i]? =
      some (mergeBlock cdeData baseChainData[i]) := by
  simp [composeChainData, List.getElem?_eq_getElem, hi]

lemma mergeBlock_of_find?_none (cdeData : List CdeRecord) (blockData : ChainData)
    (h : cdeData.find? (fun c => c.blockNumber == blockData.blockNumber) = none) :
    mergeBlock cdeData blockData = blockData := by
  simp [mergeBlock, h]

lemma mergeBlock_of_find?_some (cdeData : List CdeRecord) (blockData : ChainData)
    (m : CdeRecord)
    (h : cdeData.find? (fun c => c.blockNumber == blockData.blockNumber) = some m) :
    mergeBlock cdeData blockData =
      { blockData with
        extensionDatums := some (blockData.extensionDatums.getD [] ++ m.extensionDatums) } := by
  cases he : blockData.extensionDatums with
  | none => simp [mergeBlock, h, he]
  | some eds => simp [mergeBlock, h, he]

/-- C4: `composeChainData` merges by pure concatenation of extension-datum
lists, position by position: the output has the same length as the primary
list; a primary block with no matching secondary record is returned
unchanged; and a block with a matching record gets exactly its existing
extension datums (the empty list when absent) followed by the record's
datums — so an empty side yields the other side and two non-empty sides are
concatenated without loss or reordering. -/
theorem composeChainData_correct (baseChainData : List ChainData) (cdeData : List CdeRecord)
    (i : Nat) (hi : i < baseChainData.length) :
    (composeChainData baseChainData cdeData).length = baseChainData.length ∧
    (cdeData.find? (fun c => c.blockNumber == baseChainData[i].blockNumber) = none →
      (composeChainData baseChainData cdeData)[i]? = some baseChainData[i]) ∧
    (∀ m, cdeData.find? (fun c => c.blockNumber == baseChainData[i].blockNumber) = some m →
      (composeChainData baseChainData cdeData)[i]? =
        some { baseChainData[i] with
          extensionDatums := some (baseChainData[i].extensionDatums.getD [] ++ m.extensionDatums) }) := by
  refine ⟨by simp [composeChainData], ?_, ?_⟩
  · intro h
    rw [composeChainData_getElem baseChainData cdeData i hi,
      mergeBlock_of_find?_none _ _ h]
  · intro m h
    rw [composeChainData_getElem baseChainData cdeData i hi,
      mergeBlock_of_find?_some _ _ m h]

/-- A sample extension datum attached to a primary block before merging. -/
def datumA : CdeGenericDatum :=
  ⟨"availDefaultExtension", 7, "hash", "a", .Generic, "avail", "avail"⟩

/-- A sample extension datum delivered by the secondary chain. -/
def datumB : CdeGenericDatum :=
  ⟨"availDefaultExtension", 7, "hash", "b", .Generic, "avail", "avail"⟩

/-- A primary block that already carries extension datum `datumA`. -/
def blockWithA : ChainData :=
  ⟨40, "h7", 7, [], some [datumA]⟩

/-- A secondary record for the same block number carrying `datumB`. -/
def recordWithB : CdeRecord :=
  ⟨7, [datumB]⟩

/-- Witness for C4: merging a block holding `[datumA]` with a record holding
`[datumB]` yields `[datumA, datumB]` — non-empty lists are concatenated
without loss or reordering. -/
theorem composeChainData_correct_witness :
    (composeChainData [blockWithA] [recordWithB])[0]? =
      some { blockWithA with extensionDatums := some [datumA, datumB] } := by
  have h := (composeChainData_correct [blockWithA] [recordWithB] 0 (by decide)).2.2
    recordWithB (by decide)
  simpa using h

/-- C5: `composeChainData` merges only the first record whose `blockNumber`
matches the primary block: for a record list `pre ++ m :: post` where nothing
in `pre` matches and `m` matches, the merged block gets exactly `m`'s
extension datums appended, and the result is the same as if the records after
`m` (including any further records with the same block number, as arise when
several secondary blocks are remapped to one primary block) were absent —
their datums are dropped. -/
theorem composeChainData_first_match_only (baseChainData : List ChainData)
    (pre post : List CdeRecord) (m : CdeRecord) (i : Nat) (hi : i < baseChainData.length)
    (hpre : ∀ r ∈ pre, (r.blockNumber == baseChainData[i].blockNumber) = false)
    (hm : m.blockNumber = baseChainData[i].blockNumber) :
    (composeChainData baseChainData (pre ++ m :: post))[i]? =
      some { baseChainData[i] with
        extensionDatums := some (baseChainData[i].extensionDatums.getD [] ++ m.extensionDatums) } ∧
    (composeChainData baseChainData (pre ++ m :: post))[i]? =
      (composeChainData baseChainData (pre ++ [m]))[i]? := by
  have hfind : ∀ post2 : List CdeRecord,
      (pre ++ m :: post2).find? (fun c => c.blockNumber == baseChainData[i].blockNumber) =
        some m := by
    intro post2
    rw [List.find?_append]
    have hnone : pre.find? (fun c => c.blockNumber == baseChainData[i].blockNumber) = none :=
      List.find?_eq_none.mpr (fun r hr => by simp [hpre r hr])
    rw [hnone]
    simp [List.find?_cons, hm]
  constructor
  · rw [composeChainData_getElem _ _ i hi, mergeBlock_of_find?_some _ _ m (hfind post)]
  · rw [composeChainData_getElem _ _ i hi, composeChainData_getElem _ _ i hi,
      mergeBlock_of_find?_some _ _ m (hfind post),
      mergeBlock_of_find?_some _ _ m (by simpa using hfind [])]

/-- A second secondary record with the same block number as `recordWithB`,
carrying a different datum. -/
def duplicateRecord : CdeRecord :=
  ⟨7, [datumA]⟩

/-- Witness for C5: with two records for block 7, only the first one's datums
are merged; the duplicate's datums are dropped, and removing the duplicate
does not change the result. -/
theorem composeChainData_first_match_only_witness :
    (composeChainData [blockWithA] [recordWithB, duplicateRecord])[0]? =
      some { blockWithA with extensionDatums := some [datumA, datumB] } ∧
    (composeChainData [blockWithA] [recordWithB, duplicateRecord])[0]? =
      (composeChainData [blockWithA] [recordWithB])[0]? := by
  have h := composeChainData_first_match_only [blockWithA] [] [duplicateRecord]
    recordWithB 0 (by decide) (by intro r hr; simp at hr) (by decide)
  constructor
  · have h1 := h.1
    simpa using h1
  · have h2 := h.2
    simpa using h2

/-- One entry of a secondary header's digest log. `isPreRuntime` is the
consensus tag checked by `getSlotFromHeader`; `slotNumber` stands for the
slot obtained by decoding the entry's BABE pre-digest payload (every variant
of the decoded enumeration carries a `slotNumber` field, which the source
reads off the payload's sole key). -/
structure DigestLog where
  isPreRuntime : Bool
  slotNumber : Nat
  deriving DecidableEq, Repr

/-- A secondary-chain header as far as `getSlotFromHeader` inspects it. -/
structure AvailHeader where
  number : Nat
  digest : List DigestLog
  deriving DecidableEq, Repr

/-- The error taxonomy of the design. `malformedHeader` names the failure
`getSlotFromHeader` raises when a header has no pre-runtime digest entry (in
the source, the non-null assertion on `digest.logs.find(...)` makes the
access throw there). -/
inductive FunnelError where
  | malformedHeader
  deriving DecidableEq, Repr

/-- `getSlotFromHeader` from funnel.ts (lines 415-426): find the first
pre-runtime digest log and decode its slot; with no pre-runtime entry the
function cannot return a slot and aborts (modelled as `Except.error`). -/
def getSlotFromHeader (header : AvailHeader) : Except FunnelError Nat :=
  match header.digest.find? (fun log => log.isPreRuntime) with
  | none => Except.error FunnelError.malformedHeader
  | some log => Except.ok log.slotNumber

/-- C6: for every secondary header whose digest log contains no entry tagged
pre-runtime, deriving the slot fails with the malformed-header error — it
neither returns a slot value nor any other outcome. -/
theorem getSlotFromHeader_malformed (header : AvailHeader)
    (h : ∀ log ∈ header.digest, log.isPreRuntime = false) :
    getSlotFromHeader header = Except.error FunnelError.malformedHeader := by
  unfold getSlotFromHeader
  have hfind : header.digest.find? (fun log => log.isPreRuntime) = none :=
    List.find?_eq_none.mpr (fun log hmem => by simp [h log hmem])
  rw [hfind]

/-- Witness for C6 on a concrete header with two non-pre-runtime digest
entries. -/
theorem getSlotFromHeader_malformed_witness :
    getSlotFromHeader ⟨5, [⟨false, 3⟩, ⟨false, 9⟩]⟩ =
      Except.error FunnelError.malformedHeader :=
  getSlotFromHeader_malformed ⟨5, [⟨false, 3⟩, ⟨false, 9⟩]⟩ (by decide)

/-- The reply of the light client's `GET /v2/blocks/{n}/data` endpoint, as
`getSubmittedData` reads it: the HTTP status plus the decoded JSON body
(`block_number` and the list of `data` strings of `data_transactions`). -/
structure BlockDataResponse where
  status : Nat
  block_number : Int
  data_transactions : List String
  deriving DecidableEq, Repr

/-- One transaction wrapped as a generic event datum
(funnel.ts lines 477-485). -/
def wrapTransaction (network : String) (blockNumber : Int) (data : String) : CdeGenericDatum :=
  { cdeName := "availDefaultExtension", blockNumber := blockNumber, transactionHash := "hash",
    payload := data, cdeDatumType := CdeDatumType.Generic, scheduledTag := "avail",
    network := network }

/-- The loop body of `getSubmittedData` (funnel.ts lines 458-488), iterating
`curr` from `lcFrom` upward for a fixed number of blocks (the fuel, supplied
by the wrapper as the size of the inclusive range): skip a block whose
response status is not 200; skip a 200 block with no data transactions; for a
200 block with transactions, push one record wrapping each transaction. The
endpoint oracle `resp` maps a block number to its response. -/
def getSubmittedDataGo (resp : Int → BlockDataResponse) (network : String) :
    Nat → Int → List CdeRecord
  | 0, _ => []
  | fuel + 1, curr =>
    let r := resp curr
    if r.status ≠ 200 then getSubmittedDataGo resp network fuel (curr + 1)
    else if r.data_transactions.length > 0 then
      ⟨r.block_number, r.data_transactions.map (wrapTransaction network r.block_number)⟩ ::
        getSubmittedDataGo resp network fuel (curr + 1)
    else getSubmittedDataGo resp network fuel (curr + 1)

/-- `getSubmittedData` from funnel.ts (lines 450-491) over the inclusive
block range `[lcFrom, lcTo]`. -/
def getSubmittedData (resp : Int → BlockDataResponse) (lcFrom lcTo : Int)
    (network : String) : List CdeRecord :=
  getSubmittedDataGo resp network (lcTo + 1 - lcFrom).toNat lcFrom

/-- The ascending enumeration of the inclusive integer range `[lcFrom, lcTo]`. -/
def intRange (lcFrom lcTo : Int) : List Int :=
  (List.range (lcTo + 1 - lcFrom).toNat).map (fun (i : Nat) => lcFrom + (i : Int))

lemma getSubmittedDataGo_eq (resp : Int → BlockDataResponse) (network : String) :
    ∀ fuel curr, getSubmittedDataGo resp network fuel curr =
      ((List.range fuel).map (fun (i : Nat) => curr + (i : Int))).filterMap (fun b =>
        if (resp b).status = 200 ∧ 0 < (resp b).data_transactions.length then
          some ⟨(resp b).block_number,
            (resp b).data_transactions.map (wrapTransaction network (resp b).block_number)⟩
        else none) := by
  intro fuel
  induction fuel with
  | zero => intro curr; simp [getSubmittedDataGo]
  | succ fuel ih =>
    intro curr
    rw [List.range_succ_eq_map]
    have hmap : ((0 :: (List.range fuel).map Nat.succ).map (fun (i : Nat) => curr + (i : Int))) =
        curr :: ((List.range fuel).map (fun (i : Nat) => curr + 1 + (i : Int))) := by
      rw [List.map_cons, List.map_map]
      congr 1
      · push_cast
        ring
      · apply List.map_congr_left
        intro i _
        simp only [Function.comp_apply]
        push_cast
        ring
    rw [hmap, List.filterMap_cons]
    by_cases hs : (resp curr).status = 200
    · by_cases hd : 0 < (resp curr).data_transactions.length
      · rw [if_pos ⟨hs, hd⟩]
        show getSubmittedDataGo resp network (fuel + 1) curr = _
        rw [getSubmittedDataGo]
        simp only [hs, hd, ne_eq, not_true_eq_false, if_false, if_pos]
        rw [ih]
      · rw [if_neg (by tauto)]
        show getSubmittedDataGo resp network (fuel + 1) curr = _
        rw [getSubmittedDataGo]
        simp only [hs, ne_eq, not_true_eq_false, if_false]
        rw [if_neg hd, ih]
    · rw [if_neg (by tauto)]
      show getSubmittedDataGo resp network (fuel + 1) curr = _
      rw [getSubmittedDataGo]
      rw [if_pos (by simpa using hs), ih]

/-- C8: over the inclusive range `[lcFrom, lcTo]`, `getSubmittedData` equals
the ascending enumeration of the range filtered and mapped block by block: a
block whose response status is not 200 contributes nothing (skipped, no
error, iteration continues), a 200 block with an empty transaction list
contributes nothing, and a 200 block with transactions contributes exactly
one record wrapping each of its transactions as a generic event datum tagged
with the network name. -/
theorem getSubmittedData_correct (resp : Int → BlockDataResponse) (lcFrom lcTo : Int)
    (network : String) :
    getSubmittedData resp lcFrom lcTo network =
      (intRange lcFrom lcTo).filterMap (fun b =>
        if (resp b).status = 200 ∧ 0 < (resp b).data_transactions.length then
          some ⟨(resp b).block_number,
            (resp b).data_transactions.map (wrapTransaction network (resp b).block_number)⟩
        else none) := by
  unfold getSubmittedData intRange
  rw [getSubmittedDataGo_eq]

/-- A secondary-chain-only presync record (`PresyncChainData` restricted to
the fields `readPresyncData` fills in; the constant `networkType` tag is
omitted). -/
structure PresyncChainData where
  network : String
  blockNumber : Int
  extensionDatums : List CdeGenericDatum
  deriving DecidableEq, Repr

/-- The outcome of `readPresyncData` for the funnel's own network:
`finished` is the `FUNNEL_PRESYNC_FINISHED` marker, `base` means the base
funnel's result is returned with no entry for this network (the clamped
range was empty), `data` carries the tagged records. -/
inductive PresyncOutcome where
  | finished
  | base
  | data (records : List PresyncChainData)
  deriving DecidableEq, Repr

/-- `readPresyncData` of the Avail funnel (funnel.ts lines 218-268),
restricted to this funnel's network (the delegation of other networks to the
base funnel is identity on their entries). Inputs are the requested range
`[argFrom, argTo]`, the configured starting height, and the light-client
endpoint oracle. Besides the outcome it returns the list of ranges actually
fetched from the light client, so that "performs no fetch" is provable. -/
def readPresyncData (startBlockHeight : Int) (network : String)
    (resp : Int → BlockDataResponse) (argFrom argTo : Int) :
    PresyncOutcome × List (Int × Int) :=
  if startBlockHeight ≤ argFrom then (PresyncOutcome.finished, [])
  else
    let toBlock := min argTo (startBlockHeight - 1)
    let fromBlock := max argFrom 0
    if toBlock < fromBlock then (PresyncOutcome.base, [])
    else
      (PresyncOutcome.data ((getSubmittedData resp fromBlock toBlock network).map
        (fun d => ⟨network, d.blockNumber, d.extensionDatums⟩)), [(fromBlock, toBlock)])

/-- C7: `readPresyncData` clamps the requested range to
`[max(argFrom, 0), min(argTo, startBlockHeight - 1)]`: if the requested lower
bound reached `startBlockHeight` it returns the FINISHED marker for this
network and fetches nothing; otherwise it performs exactly one fetch, over
exactly the clamped range (none when the clamped range is empty), and every
returned record is tagged with the network name. -/
theorem readPresyncData_correct (startBlockHeight : Int) (network : String)
    (resp : Int → BlockDataResponse) (argFrom argTo : Int) :
    (startBlockHeight ≤ argFrom →
      readPresyncData startBlockHeight network resp argFrom argTo =
        (PresyncOutcome.finished, [])) ∧
    (argFrom < startBlockHeight →
      (readPresyncData startBlockHeight network resp argFrom argTo).2 =
        if min argTo (startBlockHeight - 1) < max argFrom 0 then []
        else [(max argFrom 0, min argTo (startBlockHeight - 1))]) ∧
    (argFrom < startBlockHeight → max argFrom 0 ≤ min argTo (startBlockHeight - 1) →
      (readPresyncData startBlockHeight network resp argFrom argTo).1 =
        PresyncOutcome.data ((getSubmittedData resp (max argFrom 0)
          (min argTo (startBlockHeight - 1)) network).map
            (fun d => ⟨network, d.blockNumber, d.extensionDatums⟩))) ∧
    (∀ recs, (readPresyncData startBlockHeight network resp argFrom argTo).1 =
        PresyncOutcome.data recs → ∀ r ∈ recs, r.network = network) := by
  refine ⟨?_, ?_, ?_, ?_⟩
  · intro h
    simp [readPresyncData, h]
  · intro h
    rw [readPresyncData, if_neg (by omega)]
    by_cases hr : min argTo (startBlockHeight - 1) < max argFrom 0
    · simp [hr]
    · simp [hr, if_neg hr]
  · intro h hr
    rw [readPresyncData, if_neg (by omega), if_neg (by omega)]
  · intro recs hrecs r hr
    rw [readPresyncData] at hrecs
    by_cases h1 : startBlockHeight ≤ argFrom
    · simp [if_pos h1] at hrecs
    · rw [if_neg h1] at hrecs
      by_cases h2 : min argTo (startBlockHeight - 1) < max argFrom 0
      · simp only [if_pos h2] at hrecs
        cases hrecs
      · simp only [if_neg h2, Prod.fst] at hrecs
        cases hrecs
        simp only [List.mem_map] at hr
        obtain ⟨d, _, hd⟩ := hr
        rw [← hd]

/-- Witness for C7 with `startBlockHeight = 50`: a request from 50 returns
FINISHED with no fetch, and a request `[0, 100]` fetches exactly `[0, 49]`
(`getSubmittedData` evaluated on an endpoint oracle with no data). -/
theorem readPresyncData_correct_witness :
    readPresyncData 50 "avail" (fun b => ⟨404, b, []⟩) 50 100 =
      (PresyncOutcome.finished, []) ∧
    (readPresyncData 50 "avail" (fun b => ⟨404, b, []⟩) 0 100).2 = [(0, 49)] :=
  ⟨(readPresyncData_correct 50 "avail" (fun b => ⟨404, b, []⟩) 50 100).1 (by omega),
   by
    have h := (readPresyncData_correct 50 "avail" (fun b => ⟨404, b, []⟩) 0 100).2.1 (by omega)
    simpa using h⟩

/-- The header data `readData` keeps per fetched secondary header
(`HeaderData` in funnel.ts). -/
structure HeaderData where
  number : Nat
  hash : String
  slot : Nat
  deriving DecidableEq, Repr

/-- The `(logicalTime, secondaryBlockNumber)` pair appended to
`timestampToBlockNumber` for a fetched header (funnel.ts line 149). -/
def entryOfHeader (h : HeaderData) : Nat × Nat :=
  (h.slot * 20, h.number)

/-- The update of `cachedState.timestampToBlockNumber` in one `readData`
round (funnel.ts lines 148-163): append the pair of every fetched header at
the tail, then trim from the head every pair whose logical time is at most
the previously consumed boundary `lastMaxSlot * 20` (the while/shift loop,
which stops at the first pair above the boundary). -/
def updateTimestampToBlockNumber (old : List (Nat × Nat)) (headers : List HeaderData)
    (lastMaxSlot : Nat) : List (Nat × Nat) :=
  (old ++ headers.map entryOfHeader).dropWhile (fun p => decide (p.1 ≤ lastMaxSlot * 20))

/-- `timestampToBlockNumber` after a sequence of `readData` rounds, each
contributing its fetched headers and the boundary in force during its trim;
the index starts empty (the state is initialized with an empty index). -/
def runTimestampToBlockNumber (batches : List (List HeaderData × Nat)) : List (Nat × Nat) :=
  batches.foldl (fun acc b => updateTimestampToBlockNumber acc b.1 b.2) []

/-- All pairs ever appended across a sequence of rounds, in append order. -/
def joinedEntries (batches : List (List HeaderData × Nat)) : List (Nat × Nat) :=
  (batches.map (fun b => b.1.map entryOfHeader)).flatten

lemma updateTimestampToBlockNumber_suffix (old : List (Nat × Nat))
    (headers : List HeaderData) (lastMaxSlot : Nat) :
    (updateTimestampToBlockNumber old headers lastMaxSlot).IsSuffix
      (old ++ headers.map entryOfHeader) :=
  List.dropWhile_suffix _

lemma runTimestampToBlockNumber_sublist_aux (batches : List (List HeaderData × Nat)) :
    ∀ acc pre : List (Nat × Nat), acc.Sublist pre →
      (batches.foldl (fun acc b => updateTimestampToBlockNumber acc b.1 b.2) acc).Sublist
        (pre ++ joinedEntries batches) := by
  induction batches with
  | nil =>
    intro acc pre h
    simpa [joinedEntries] using h
  | cons b bs ih =>
    intro acc pre h
    rw [List.foldl_cons]
    have hstep : (updateTimestampToBlockNumber acc b.1 b.2).Sublist
        (pre ++ b.1.map entryOfHeader) := by
      refine List.Sublist.trans ?_ (h.append_right (b.1.map entryOfHeader))
      exact (updateTimestampToBlockNumber_suffix acc b.1 b.2).sublist
    have := ih (updateTimestampToBlockNumber acc b.1 b.2) (pre ++ b.1.map entryOfHeader) hstep
    simpa [joinedEntries, List.append_assoc] using this

/-- C9: across any sequence of `readData` rounds whose appended
`(logicalTime, blockNumber)` pairs arrive in globally non-decreasing logical
time (headers are fetched in ascending block order on a chain with
non-decreasing slots), the `timestampToBlockNumber` index stays sorted
ascending by logical time; moreover each round's update only removes entries
from the head and appends at the tail — its result is a contiguous suffix of
the previous index followed by the new pairs — so the index is never
reordered (it is a sublist of the append-ordered history). -/
theorem timestampToBlockNumber_invariant (batches : List (List HeaderData × Nat))
    (hglobal : (joinedEntries batches).Pairwise (fun a b => a.1 ≤ b.1)) :
    (runTimestampToBlockNumber batches).Pairwise (fun a b => a.1 ≤ b.1) ∧
    (runTimestampToBlockNumber batches).Sublist (joinedEntries batches) ∧
    (∀ old headers lastMaxSlot,
      (updateTimestampToBlockNumber old headers lastMaxSlot).IsSuffix
        (old ++ headers.map entryOfHeader)) := by
  have hsub : (runTimestampToBlockNumber batches).Sublist (joinedEntries batches) := by
    have := runTimestampToBlockNumber_sublist_aux batches [] [] (List.Sublist.refl [])
    simpa [runTimestampToBlockNumber] using this
  exact ⟨hglobal.sublist hsub, hsub, updateTimestampToBlockNumber_suffix⟩

/-- Witness for C9 on two concrete rounds: headers at slots 1,2 (times
20,40) then slot 3 (time 60), the second round trimming with boundary
`lastMaxSlot = 1` (time 20): the resulting index is sorted and a sublist of
the appended history. -/
theorem timestampToBlockNumber_invariant_witness :
    (runTimestampToBlockNumber
        [([⟨10, "a", 1⟩, ⟨11, "b", 2⟩], 0), ([⟨12, "c", 3⟩], 1)]).Pairwise
      (fun a b => a.1 ≤ b.1) ∧
    (runTimestampToBlockNumber
        [([⟨10, "a", 1⟩, ⟨11, "b", 2⟩], 0), ([⟨12, "c", 3⟩], 1)]).Sublist
      (joinedEntries [([⟨10, "a", 1⟩, ⟨11, "b", 2⟩], 0), ([⟨12, "c", 3⟩], 1)]) :=
  ⟨(timestampToBlockNumber_invariant
      [([⟨10, "a", 1⟩, ⟨11, "b", 2⟩], 0), ([⟨12, "c", 3⟩], 1)] (by decide)).1,
   (timestampToBlockNumber_invariant
      [([⟨10, "a", 1⟩, ⟨11, "b", 2⟩], 0), ([⟨12, "c", 3⟩], 1)] (by decide)).2.1⟩

/-- The resume-cursor determination in `readData` (funnel.ts lines 77-107),
run on the first call that finds `cachedState.lastBlock` unset.
`persisted` is the durable cursor query result
(`getLatestProcessedCdeBlockheight`, `none` when no row exists);
`startingBlockHeight` is `cachedState.startingBlockHeight`, the secondary
height that `recoverState` mapped from the starting primary block and stored
via `initialize`; `prevBlockTs` is the timestamp of the primary block
preceding the first block of this round's batch
(`web3.eth.getBlock(chainData[0].blockNumber - 1)`), searched on the
secondary chain described by `slot` up to `finalizedHeight`. -/
def availResumeCursor (slot : Nat → Nat) (finalizedHeight cfgDelay : Nat)
    (persisted : Option Nat) (startingBlockHeight : Nat) (prevBlockTs : Nat) : Nat :=
  match persisted with
  | some h => max h (startingBlockHeight - 1)
  | none => findBlockByTimestamp slot (applyDelay cfgDelay prevBlockTs) finalizedHeight - 1

/-- The resume-cursor rule as the specification states it: prefer the
persisted height when it is at least `startingBlockHeight - 1`, otherwise
use the bootstrap value computed in `recoverState` (the secondary block
mapped from the starting primary block's delayed timestamp; under the
cached state, `startingBlockHeight` is that bootstrap value). -/
def specResumeCursor (persisted : Option Nat) (startingBlockHeight bootstrapHeight : Nat) :
    Nat :=
  match persisted with
  | some h => if startingBlockHeight - 1 ≤ h then h else bootstrapHeight
  | none => bootstrapHeight

/-- C3, counterexample to the claim as stated: on a secondary chain with
slots `10·n` (logical times `200·n`), no configured delay, starting primary
block timestamp 1000 and its predecessor's timestamp 200, with no persisted
cursor the code searches afresh from the predecessor's delayed timestamp and
sets the cursor to block 1, while the bootstrap value from `recoverState`
(the block mapped from the starting primary block's timestamp) is block 6 —
the claimed rule does not describe the code. -/
theorem availResumeCursor_counterexample :
    availResumeCursor (fun n => 10 * n) 10 0 none
        (findBlockByTimestamp (fun n => 10 * n) (applyDelay 0 1000) 10) 200 ≠
      specResumeCursor none
        (findBlockByTimestamp (fun n => 10 * n) (applyDelay 0 1000) 10)
        (findBlockByTimestamp (fun n => 10 * n) (applyDelay 0 1000) 10) := by
  decide

/-- C3, amended: when a persisted height is recorded, the cursor is the
maximum of it and `startingBlockHeight - 1` (so the persisted height is used
exactly when it is at least `startingBlockHeight - 1`, the cached bootstrap
height minus one otherwise); when no persisted height is recorded, the
cursor is one less than the first secondary block whose logical time
strictly exceeds the delayed timestamp of the primary block preceding the
batch — a fresh binary search, not the bootstrap value computed in
`recoverState` —: on a chain with non-decreasing slots every secondary block
up to the cursor has logical time at most that delayed timestamp, and the
block right after the cursor (if finalized) exceeds it. -/
theorem availResumeCursor_correct (slot : Nat → Nat) (finalizedHeight cfgDelay : Nat)
    (startingBlockHeight prevBlockTs : Nat)
    (mono : ∀ i j, 1 ≤ i → i ≤ j → j ≤ finalizedHeight → slot i ≤ slot j) :
    (∀ h, availResumeCursor slot finalizedHeight cfgDelay (some h)
        startingBlockHeight prevBlockTs = max h (startingBlockHeight - 1)) ∧
    (∀ n, 1 ≤ n →
      n ≤ availResumeCursor slot finalizedHeight cfgDelay none startingBlockHeight prevBlockTs →
      slot n * 20 ≤ applyDelay cfgDelay prevBlockTs) ∧
    (availResumeCursor slot finalizedHeight cfgDelay none startingBlockHeight prevBlockTs + 1 ≤
        finalizedHeight →
      applyDelay cfgDelay prevBlockTs <
        slot (availResumeCursor slot finalizedHeight cfgDelay none
          startingBlockHeight prevBlockTs + 1) * 20) := by
  have hf := findLoop_spec slot (applyDelay cfgDelay prevBlockTs) finalizedHeight mono
    (finalizedHeight + 1) 1 (finalizedHeight + 1) (by omega) (le_refl 1) (by omega)
    (le_refl _) (by intro n hn1 hn2; omega) (by intro n hn1 hn2; omega)
  have hcur : availResumeCursor slot finalizedHeight cfgDelay none
      startingBlockHeight prevBlockTs =
      findLoop slot (applyDelay cfgDelay prevBlockTs) (finalizedHeight + 1) 1
        (finalizedHeight + 1) - 1 := rfl
  refine ⟨fun h => rfl, ?_, ?_⟩
  · intro n hn1 hn2
    rw [hcur] at hn2
    exact hf.2.2.1 n hn1 (by omega)
  · intro hlt
    rw [hcur] at hlt ⊢
    have h1 := hf.1
    have hplus : findLoop slot (applyDelay cfgDelay prevBlockTs) (finalizedHeight + 1) 1
        (finalizedHeight + 1) - 1 + 1 =
        findLoop slot (applyDelay cfgDelay prevBlockTs) (finalizedHeight + 1) 1
          (finalizedHeight + 1) := by omega
    rw [hplus] at hlt ⊢
    exact hf.2.2.2 hlt

/-- Witness for the amended C3: on the chain with slots `10·n`, persisted
cursor 7 beats `startingBlockHeight - 1 = 5`; and with no persisted cursor
and predecessor timestamp 200, blocks up to the cursor (block 1) have time
`≤ 200` while block 2 has time `400 > 200`. -/
theorem availResumeCursor_correct_witness :
    availResumeCursor (fun n => 10 * n) 10 0 (some 7) 6 200 = max 7 (6 - 1) ∧
    (1 ≤ 1 → 1 ≤ availResumeCursor (fun n => 10 * n) 10 0 none 6 200 →
      (fun n => 10 * n) 1 * 20 ≤ applyDelay 0 200) ∧
    (availResumeCursor (fun n => 10 * n) 10 0 none 6 200 + 1 ≤ 10 →
      applyDelay 0 200 <
        (fun n => 10 * n) (availResumeCursor (fun n => 10 * n) 10 0 none 6 200 + 1) * 20) :=
  ⟨(availResumeCursor_correct (fun n => 10 * n) 10 0 6 200
      (fun i j _ h _ => by show 10 * i ≤ 10 * j; omega)).1 7,
   (availResumeCursor_correct (fun n => 10 * n) 10 0 6 200
      (fun i j _ h _ => by show 10 * i ≤ 10 * j; omega)).2.1 1,
   (availResumeCursor_correct (fun n => 10 * n) 10 0 6 200
      (fun i j _ h _ => by show 10 * i ≤ 10 * j; omega)).2.2⟩

/-- Modelled from the spec: the portion of `AvailFunnelCacheEntry`
(`FunnelCache.ts`, not part of the sources here) that `recoverState`
interacts with. Per §4.3 of the design, `initialize(api, mapped)` records
the mapped secondary starting height together with an empty buffer and
index as the initial correlation state, and `initialized()` reports whether
that one-time bootstrap has happened; the entry is keyed by a fixed symbol
in the shared cache manager. `none` models both a missing entry and a
freshly constructed uninitialized one. -/
structure AvailFunnelCacheEntryState where
  startingBlockHeight : Nat
  bufferedChainData : List ChainData
  timestampToBlockNumber : List (Nat × Nat)
  deriving DecidableEq, Repr

/-- The outcome of one `recoverState` invocation on the cache entry: the
entry left in the shared cache, and whether the bootstrap work ran (fetching
the starting primary block, creating the api handle, and binary-searching
the secondary chain all happen exactly inside the `!initialized()` branch,
funnel.ts lines 289-301). -/
structure RecoverOutcome where
  entry : AvailFunnelCacheEntryState
  didBootstrap : Bool
  deriving DecidableEq, Repr

/-- `recoverState`'s get-or-create of the cache entry (funnel.ts lines
279-301): reuse the stored entry when present and initialized, otherwise run
the bootstrap (modelled by its result `boot`) and store it. -/
def recoverStateCache (stored : Option AvailFunnelCacheEntryState)
    (boot : AvailFunnelCacheEntryState) : RecoverOutcome :=
  match stored with
  | some s => ⟨s, false⟩
  | none => ⟨boot, true⟩

/-- C10: `recoverState` is idempotent with respect to bootstrap: whatever the
first invocation stored, every later invocation (whose bootstrap, were it
run, could even differ) returns the stored state unchanged and performs no
bootstrap work — the starting primary block is not re-fetched, the secondary
chain is not re-searched, and the state is not re-initialized. -/
theorem recoverStateCache_idempotent (stored : Option AvailFunnelCacheEntryState)
    (boot1 boot2 : AvailFunnelCacheEntryState) :
    (recoverStateCache (some (recoverStateCache stored boot1).entry) boot2).entry =
      (recoverStateCache stored boot1).entry ∧
    (recoverStateCache (some (recoverStateCache stored boot1).entry) boot2).didBootstrap =
      false := by
  cases stored with
  | none => exact ⟨rfl, rfl⟩
  | some s => exact ⟨rfl, rfl⟩

end AvailFunnel
